import Mathlib

/-!
Verification of the Danawa web crawler (src/main.py).

The Python source is shallowly embedded: listing nodes, elements and page
documents are modelled by their observable query interface (the subset of
BeautifulSoup operations the crawler uses), machine strings are Lean
strings (codepoint lists, matching Python `len`/indexing semantics), and
the page-fetch loop is a pure function of a fetch oracle that records, for
every page number, either a successful HTTP response or the fact that an
exception was raised inside the per-page `try` block.

Modelling notes, applying throughout:
* Python whitespace classes (`str.strip`, regex `\s`) are modelled by the
  six ASCII whitespace characters; all inputs used in theorems stay inside
  the ASCII-whitespace fragment, where the model agrees with Python.
* `html.unescape` is modelled restricted to the five core named character
  references (amp, lt, gt, quot, apos), each terminated by a semicolon;
  the model agrees with the stdlib on strings whose ampersands begin one
  of these references or none.
* regex `\d` is modelled as the ASCII digits.
-/

/-- The six ASCII whitespace characters: the model of the Python regex
class `\s` and of the character set stripped by `str.strip()`. -/
def isPySpace (c : Char) : Bool :=
  c == ' ' || c == '\t' || c == '\n' || c == '\r' ||
  c == Char.ofNat 11 || c == Char.ofNat 12

/-- Remove leading and trailing whitespace: Python `str.strip()`. -/
def stripList (l : List Char) : List Char :=
  ((l.dropWhile isPySpace).reverse.dropWhile isPySpace).reverse

/-- Python `str.strip()` on strings. -/
def pyStrip (s : String) : String := ⟨stripList s.data⟩

/-- Value of a nonempty all-digit string, as computed by Python `int`. -/
def digitsToNat (l : List Char) : Nat :=
  l.foldl (fun n c => 10 * n + (c.toNat - 48)) 0

/-- `re.sub(r'[^\d]', '', s)`: keep only the digits of `s`. -/
def digitsOf (s : String) : List Char := s.data.filter Char.isDigit

/-- `re.sub(r'\s+', ' ', _)`: replace every maximal whitespace run by a
single space.  The flag records whether the previous character was
whitespace (i.e. whether we are inside a run whose space has already been
emitted). -/
def collapseGo (prevWs : Bool) : List Char → List Char
  | [] => []
  | c :: rest =>
    if isPySpace c then
      if prevWs then collapseGo true rest else ' ' :: collapseGo true rest
    else c :: collapseGo false rest

/-- Model of `html.unescape`, restricted to the five core named character
references (see the header note).  Python replaces references left to
right and does not rescan the produced character, hence the recursion on
the remainder after each replacement.  The fuel argument only bounds the
recursion; `unescape` supplies `l.length`, which is sufficient because
every step consumes at least one character. -/
def unescapeGo : Nat → List Char → List Char
  | 0, l => l
  | _ + 1, [] => []
  | fuel + 1, c :: rest =>
    if c = '&' then
      if "amp;".data.isPrefixOf rest then '&' :: unescapeGo fuel (rest.drop 4)
      else if "lt;".data.isPrefixOf rest then '<' :: unescapeGo fuel (rest.drop 3)
      else if "gt;".data.isPrefixOf rest then '>' :: unescapeGo fuel (rest.drop 3)
      else if "quot;".data.isPrefixOf rest then '"' :: unescapeGo fuel (rest.drop 5)
      else if "apos;".data.isPrefixOf rest then Char.ofNat 39 :: unescapeGo fuel (rest.drop 5)
      else '&' :: unescapeGo fuel rest
    else c :: unescapeGo fuel rest

/-- `html.unescape` (restricted model, see `unescapeGo`). -/
def unescape (l : List Char) : List Char := unescapeGo l.length l

/-- The lazy `.*?\]` part of the promotional patterns: find the first `]`
reachable without crossing a newline (regex `.` does not match `\n`), and
return the remainder after it. -/
def findClose : List Char → Option (List Char)
  | [] => none
  | c :: rest =>
    if c = ']' then some rest
    else if c = '\n' then none
    else findClose rest

/-- One backtracking attempt of `KEY.*?\]` at the current position: the
keyword must start here, then a closing bracket must be reachable. -/
def matchHere (key l : List Char) : Option (List Char) :=
  if key.isPrefixOf l then findClose (l.drop key.length) else none

/-- The `.*?KEY.*?\]` part after the opening bracket: lazy matching tries
the keyword at each successive position (growing the first gap, which may
not cross a newline), first success wins.  `matchHere key [] = none`
because `findClose [] = none`, so the nil case is `none` for every key. -/
def matchInner (key : List Char) : List Char → Option (List Char)
  | [] => none
  | c :: rest =>
    match matchHere key (c :: rest) with
    | some tail => some tail
    | none => if c = '\n' then none else matchInner key rest

/-- Match of `\[.*?KEY.*?\]` anchored at the head of `l`; on success
returns the remainder after the closing bracket. -/
def matchAt (key : List Char) : List Char → Option (List Char)
  | [] => none
  | c :: rest => if c = '[' then matchInner key rest else none

/-- `re.sub(r'\[.*?KEY.*?\]', '', _)`: delete every leftmost
non-overlapping match, scanning left to right.  The fuel argument only
bounds the recursion; `subPromo` supplies `l.length`, which is sufficient
because every match consumes at least one character
(`matchAt_length_lt` below). -/
def subPromoGo (key : List Char) : Nat → List Char → List Char
  | _, [] => []
  | 0, l => l
  | fuel + 1, c :: rest =>
    match matchAt key (c :: rest) with
    | some tail => subPromoGo key fuel tail
    | none => c :: subPromoGo key fuel rest

/-- `re.sub(r'\[.*?KEY.*?\]', '', l)`. -/
def subPromo (key l : List Char) : List Char := subPromoGo key l.length l

/-- `clean_name` (src/main.py:311-321): decode HTML entities, delete the
three bracketed promotional patterns in order, delete star-glyph runs
(`re.sub(r'★+', '')` deletes exactly the `★` characters), then collapse
whitespace and strip.  The `re.IGNORECASE` flag is a no-op on these
patterns (they contain no cased letters). -/
def clean_name (s : String) : String :=
  let a := unescape s.data
  let b := subPromo "무료배송".data a
  let c := subPromo "특가".data b
  let d := subPromo "이벤트".data c
  let e := (d.filter (fun ch => ch ≠ '★')).filter (fun ch => ch ≠ '☆')
  pyStrip ⟨collapseGo false e⟩

/-- UTF-8 encoding of one codepoint, as byte values. -/
def utf8Bytes (c : Char) : List Nat :=
  let n := c.toNat
  if n < 128 then [n]
  else if n < 2048 then [192 + n / 64, 128 + n % 64]
  else if n < 65536 then [224 + n / 4096, 128 + n / 64 % 64, 128 + n % 64]
  else [240 + n / 262144, 128 + n / 4096 % 64, 128 + n / 64 % 64, 128 + n % 64]

/-- Bytes that `urllib.parse.quote` leaves unencoded: ASCII letters,
digits, `_ . - ~` and the default safe character `/`. -/
def isSafeByte (b : Nat) : Bool :=
  (65 ≤ b && b ≤ 90) || (97 ≤ b && b ≤ 122) || (48 ≤ b && b ≤ 57) ||
  b == 95 || b == 46 || b == 45 || b == 126 || b == 47

/-- Uppercase hexadecimal digit, as used by `urllib.parse.quote`. -/
def hexDigit (n : Nat) : Char :=
  if n < 10 then Char.ofNat (48 + n) else Char.ofNat (55 + n)

/-- Percent-encoding of one byte. -/
def percentEncode (b : Nat) : List Char := ['%', hexDigit (b / 16), hexDigit (b % 16)]

/-- `urllib.parse.quote(s)`: percent-encode the UTF-8 bytes of `s`,
leaving safe bytes as their ASCII characters. -/
def pyQuote (s : String) : String :=
  ⟨((s.data.map utf8Bytes).flatten.map
      (fun b => if isSafeByte b then [Char.ofNat b] else percentEncode b)).flatten⟩

/-- Python `str.startswith` (codepoint prefix test). -/
def pyStartsWith (s pre : String) : Bool := pre.data.isPrefixOf s.data

/-!
## DOM model

A parsed element, listing node and page document are modelled by the
observable interface the crawler uses on BeautifulSoup values.  `text`
models `elem.get_text()` and `textStrip` models `elem.get_text(strip=True)`
(the two are carried separately rather than deriving one from the other,
since the crawler only ever observes them independently).
-/

/-- One parsed HTML element, as observed by the crawler. -/
structure Elem where
  text : String
  textStrip : String
  attrs : List (String × String)

/-- `elem.get(key, dflt)`. -/
def Elem.getAttr (e : Elem) (key dflt : String) : String :=
  match List.lookup key e.attrs with
  | some v => v
  | none => dflt

/-- One listing node: `select_one` / `select` resolve CSS selectors inside
the node, `fullText` is `item.get_text()` over the whole node. -/
structure Item where
  selectOne : String → Option Elem
  selectAll : String → List Elem
  fullText : String

/-- A parsed page document: `soup.select` resolves a CSS selector to the
matching listing nodes. -/
structure Soup where
  select : String → List Item

/-- Ordered fallback over a selector list: the first selector for which
`f` yields a value wins.  Shared shape of the three field extractors. -/
def firstSome {α : Type} (f : String → Option α) : List String → Option α
  | [] => none
  | s :: rest =>
    match f s with
    | some a => some a
    | none => firstSome f rest

/-!
## Field extractors (src/main.py:213-309)
-/

/-- Name selector candidates (src/main.py:215-226), in priority order. -/
def nameSelectors : List String :=
  ["p.prod_name a", "dt.prod_name a", "div.prod_name a", "a.prod_name",
   ".prod_name a", "a[title]", ".item_name a", ".product_name a",
   "h3 a", "h4 a"]

/-- Name candidate from one matched element: prefer its visible text when
longer than 3 characters, fall back to its stripped `title` attribute under
the same length bound; the result goes through `clean_name`. -/
def nameFromElem (e : Elem) : Option String :=
  if e.textStrip ≠ "" ∧ 3 < e.textStrip.length then some (clean_name e.textStrip)
  else
    let title := pyStrip (e.getAttr "title" "")
    if title ≠ "" ∧ 3 < title.length then some (clean_name title)
    else none

/-- Fallback scan over all hyperlink children (src/main.py:242-246): first
text longer than 10 characters that does not contain the currency marker. -/
def nameFromLinks : List Elem → Option String
  | [] => none
  | e :: rest =>
    if e.textStrip ≠ "" ∧ 10 < e.textStrip.length ∧ ¬(e.textStrip.data.contains '원')
    then some (clean_name e.textStrip)
    else nameFromLinks rest

/-- `get_product_name` (src/main.py:213-248). -/
def get_product_name (item : Item) : Option String :=
  match firstSome (fun s => (item.selectOne s).bind nameFromElem) nameSelectors with
  | some n => some n
  | none => nameFromLinks (item.selectAll "a")

/-- Price selector candidates (src/main.py:252-263), in priority order. -/
def priceSelectors : List String :=
  ["strong.num", "em.num_c", ".price strong", "span.price",
   ".price_sect strong", ".item_price strong", ".product_price strong",
   ".price .num", "em[class*=\"price\"]", "span[class*=\"price\"]"]

/-- Price candidate from one matched element (src/main.py:265-275): strip
non-digits from its text, require at least 3 digits, parse, and accept
only a value in [1000, 10000000].  `int` cannot fail on a nonempty digit
string, so the `except` branch is unreachable here. -/
def priceFromElem (e : Elem) : Option Nat :=
  let ds := digitsOf e.text
  if ds ≠ [] ∧ 3 ≤ ds.length then
    let price := digitsToNat ds
    if 1000 ≤ price ∧ price ≤ 10000000 then some price else none
  else none

/-- Characters matched by `[\d,]` in the fallback price regex. -/
def isRunChar (c : Char) : Bool := c.isDigit || c == ','

/-- Scanner state for `re.findall(r'([\d,]+)\s*원', _)`: either between
matches, inside a digit-and-comma run, or past a run skipping whitespace
while looking for the currency marker. -/
inductive ScanState where
  | idle
  | run (r : List Char)
  | afterWs (r : List Char)

/-- `re.findall(r'([\d,]+)\s*원', text)`, scanning left to right with
non-overlapping matches.  The run accumulators are kept reversed.  A run
not followed by optional whitespace and `원` cannot match at any of its
own suffixes either, so the scan simply continues past it, which is what
the backtracking engine does. -/
def findallGo : ScanState → List Char → List (List Char)
  | _, [] => []
  | .idle, c :: rest =>
    if isRunChar c then findallGo (.run [c]) rest else findallGo .idle rest
  | .run r, c :: rest =>
    if isRunChar c then findallGo (.run (c :: r)) rest
    else if c = '원' then r.reverse :: findallGo .idle rest
    else if isPySpace c then findallGo (.afterWs r) rest
    else findallGo .idle rest
  | .afterWs r, c :: rest =>
    if isPySpace c then findallGo (.afterWs r) rest
    else if c = '원' then r.reverse :: findallGo .idle rest
    else if isRunChar c then findallGo (.run [c]) rest
    else findallGo .idle rest

/-- `int(match.replace(',', ''))` on one fallback match: drop the commas;
`int` raises on an empty string, which the `except` branch turns into
skipping the match. -/
def matchToPrice (m : List Char) : Option Nat :=
  let ds := m.filter (fun c => c ≠ ',')
  if ds = [] then none else some (digitsToNat ds)

/-- First fallback match whose parsed value lies in [1000, 10000000]
(src/main.py:279-286). -/
def firstValidPrice : List (List Char) → Option Nat
  | [] => none
  | m :: rest =>
    match matchToPrice m with
    | none => firstValidPrice rest
    | some p => if 1000 ≤ p ∧ p ≤ 10000000 then some p else firstValidPrice rest

/-- `get_price` (src/main.py:250-288): ordered selector candidates, then
the full-text fallback; 0 is the designated no-price sentinel. -/
def get_price (item : Item) : Nat :=
  match firstSome (fun s => (item.selectOne s).bind priceFromElem) priceSelectors with
  | some p => p
  | none => (firstValidPrice (findallGo .idle item.fullText.data)).getD 0

/-- Link selector candidates (src/main.py:292-296), in priority order. -/
def urlSelectors : List String :=
  ["p.prod_name a", "dt.prod_name a", "a.prod_name"]

/-- Resolution of a non-empty link target (src/main.py:303-307):
protocol-relative targets get a scheme, root-relative targets get the
site origin, anything else passes through unchanged. -/
def resolveHref (href : String) : String :=
  if pyStartsWith href "//" then "https:" ++ href
  else if pyStartsWith href "/" then "https://www.danawa.com" ++ href
  else href

/-- The candidate one selector contributes: the matched element's `href`
attribute, when present and non-empty. -/
def hrefCandidate (item : Item) (s : String) : Option String :=
  (item.selectOne s).bind fun e =>
    let href := e.getAttr "href" ""
    if href = "" then none else some href

/-- `get_product_url` (src/main.py:290-309). -/
def get_product_url (item : Item) : String :=
  match firstSome (hrefCandidate item) urlSelectors with
  | some href => resolveHref href
  | none => ""

/-!
## Item assembler (src/main.py:194-211)
-/

/-- One accepted product record. -/
structure Product where
  name : String
  price : Nat
  product_url : String
  coupang_search_url : String
deriving DecidableEq

/-- `extract_single_product` (src/main.py:194-211): reject when the name
is missing, empty, or strips to fewer than 3 characters; reject when the
price is not positive; otherwise build the record, deriving the Coupang
search URL from the quoted stripped name. -/
def extract_single_product (item : Item) : Option Product :=
  match get_product_name item with
  | none => none
  | some name =>
    if name = "" ∨ (pyStrip name).length < 3 then none
    else
      let price := get_price item
      let product_url := get_product_url item
      if 0 < price then
        some { name := pyStrip name
               price := price
               product_url := product_url
               coupang_search_url :=
                 "https://www.coupang.com/np/search?q=" ++ pyQuote (pyStrip name) }
      else none

/-!
## Listing locator and per-page assembly (src/main.py:149-192)
-/

/-- Listing selector candidates (src/main.py:154-161), in priority order. -/
def listingSelectors : List String :=
  ["ul.product_list li", ".main_prodlist li", ".prod_list li",
   "li.prod_item", ".item_wrap", ".product_item"]

/-- First selector producing a non-empty node set wins; empty when none
does (src/main.py:166-179). -/
def firstNonempty (f : String → List Item) : List String → List Item
  | [] => []
  | s :: rest => if (f s).isEmpty then firstNonempty f rest else f s

/-- The Listing Locator half of `extract_products_from_page`. -/
def locate_items (soup : Soup) : List Item := firstNonempty soup.select listingSelectors

/-- The assembly loop of `extract_products_from_page`
(src/main.py:181-192): accept records until the per-page record cap of 40
is reached.  A per-item exception in the source is caught and skips the
item; the embedded extractors are total, so that branch has no residue
here. -/
def assembleGo : List Item → List Product → List Product
  | [], acc => acc
  | item :: rest, acc =>
    match extract_single_product item with
    | none => assembleGo rest acc
    | some p =>
      let acc' := acc ++ [p]
      if 40 ≤ acc'.length then acc' else assembleGo rest acc'

/-- `extract_products_from_page` (src/main.py:149-192): locate the
listing nodes, inspect at most 50 of them (`items[:50]`), assemble. -/
def extract_products_from_page (soup : Soup) : List Product :=
  assembleGo ((locate_items soup).take 50) []

/-!
## Page fetch loop (src/main.py:61-147)

The network is modelled by a fetch oracle: for every page number it
records either a successful response (status code, decoded text length,
parsed document) or the fact that an exception was raised inside the
per-page `try` block (transport error, parse error, ...).  Progress
notifications and the randomized inter-page sleep have no bearing on the
returned data and are not modelled.  `response.raise_for_status()` at
src/main.py:110 is unreachable-as-raising: it runs only after the
`status_code != 200` check.
-/

/-- A successful HTTP response, as the loop observes it: `status_code`,
`len(response.text)` and the parsed document. -/
structure Response where
  status_code : Nat
  htmlLength : Nat
  soup : Soup

/-- Outcome of one page turn: a response, or an exception raised inside
the per-page `try` block. -/
inductive FetchOutcome where
  | err
  | ok (r : Response)

/-- The page loop of `collect_basic_info` (src/main.py:91-145) over an
explicit list of page numbers: a non-200 status or a body under 1000
characters skips the page (`continue`); a page with zero extracted
products, or a per-page exception, stops the loop (`break`) keeping the
accumulated records. -/
def collectGoList (fetch : Nat → FetchOutcome) : List Nat → List Product → List Product
  | [], acc => acc
  | page :: rest, acc =>
    match fetch page with
    | .err => acc
    | .ok r =>
      if r.status_code ≠ 200 then collectGoList fetch rest acc
      else if r.htmlLength < 1000 then collectGoList fetch rest acc
      else
        let ps := extract_products_from_page r.soup
        if ps.isEmpty then acc
        else collectGoList fetch rest (acc ++ ps)

/-- `collect_basic_info` (src/main.py:87-147): pages 1 .. max_pages. -/
def collect_basic_info (fetch : Nat → FetchOutcome) (max_pages : Nat) : List Product :=
  collectGoList fetch (List.range' 1 max_pages) []

/-- `crawl_danawa` (src/main.py:61-85): final job status and surfaced
records.  An empty collection yields the failure status `실패` with no
records; otherwise the success status `완료` with the collected records.
The error status `오류` arises only from an exception escaping
`collect_basic_info`, i.e. one raised outside the per-page handler; every
step inside the page loop is covered by that handler, so the embedded
collection is total. -/
def crawl_danawa (fetch : Nat → FetchOutcome) (max_pages : Nat) : String × List Product :=
  let basic := collect_basic_info fetch max_pages
  if basic.isEmpty then ("실패", []) else ("완료", basic)

/-!
## Supporting lemmas
-/

theorem firstSome_eq_some {α : Type} (f : String → Option α) :
    ∀ (L : List String) (a : α), firstSome f L = some a → ∃ s ∈ L, f s = some a := by
  intro L
  induction L with
  | nil => intro a h; simp [firstSome] at h
  | cons s rest ih =>
    intro a h
    rw [firstSome] at h
    cases hfs : f s with
    | some b =>
      rw [hfs] at h
      exact ⟨s, by simp, by rw [hfs]; exact h⟩
    | none =>
      rw [hfs] at h
      obtain ⟨t, ht, hft⟩ := ih a h
      exact ⟨t, by simp [ht], hft⟩

theorem priceFromElem_spec (e : Elem) (p : Nat) (h : priceFromElem e = some p) :
    3 ≤ (digitsOf e.text).length ∧ 1000 ≤ p ∧ p ≤ 10000000 := by
  unfold priceFromElem at h
  by_cases h1 : digitsOf e.text ≠ [] ∧ 3 ≤ (digitsOf e.text).length
  · rw [if_pos h1] at h
    by_cases h2 : 1000 ≤ digitsToNat (digitsOf e.text) ∧ digitsToNat (digitsOf e.text) ≤ 10000000
    · rw [if_pos h2] at h
      cases h
      exact ⟨h1.2, h2⟩
    · rw [if_neg h2] at h
      cases h
  · rw [if_neg h1] at h
    cases h

theorem firstValidPrice_range :
    ∀ (ms : List (List Char)) (p : Nat), firstValidPrice ms = some p →
      1000 ≤ p ∧ p ≤ 10000000 := by
  intro ms
  induction ms with
  | nil => intro p h; simp [firstValidPrice] at h
  | cons m rest ih =>
    intro p h
    rw [firstValidPrice] at h
    split at h
    · exact ih p h
    · split at h
      · rename_i q hq
        simp only [Option.some.injEq] at h
        subst h
        exact hq
      · exact ih p h

/-- Every value `get_price` returns is the sentinel 0 or lies in the
accepted range. -/
theorem get_price_cases (item : Item) :
    get_price item = 0 ∨ (1000 ≤ get_price item ∧ get_price item ≤ 10000000) := by
  unfold get_price
  split
  · rename_i p hs
    right
    obtain ⟨s, _, hfs⟩ := firstSome_eq_some _ _ _ hs
    rw [Option.bind_eq_some] at hfs
    obtain ⟨e, _, hpe⟩ := hfs
    exact (priceFromElem_spec e p hpe).2
  · cases hf : firstValidPrice (findallGo .idle item.fullText.data) with
    | none => left; rfl
    | some p =>
      right
      simp only [Option.getD_some]
      exact firstValidPrice_range _ p hf

theorem stripList_eq_rdrop (l : List Char) :
    stripList l = List.rdropWhile isPySpace (l.dropWhile isPySpace) := rfl

theorem dropWhile_rdropWhile_dropWhile (p : Char → Bool) (l : List Char) :
    List.dropWhile p (List.rdropWhile p (List.dropWhile p l)) =
      List.rdropWhile p (List.dropWhile p l) := by
  cases h : List.rdropWhile p (List.dropWhile p l) with
  | nil => rfl
  | cons c t =>
    have hpre : List.rdropWhile p (List.dropWhile p l) <+: List.dropWhile p l :=
      List.rdropWhile_prefix p _
    rw [h] at hpre
    obtain ⟨s, hs⟩ := hpre
    have hhead := List.head?_dropWhile_not p l
    rw [← hs, List.cons_append, List.head?_cons] at hhead
    simp only at hhead
    exact List.dropWhile_cons_of_neg (by simp [hhead])

theorem stripList_idem (l : List Char) : stripList (stripList l) = stripList l := by
  rw [stripList_eq_rdrop, stripList_eq_rdrop, dropWhile_rdropWhile_dropWhile,
    List.rdropWhile_idempotent]

theorem pyStrip_idem (s : String) : pyStrip (pyStrip s) = pyStrip s := by
  unfold pyStrip
  exact congrArg String.mk (stripList_idem s.data)

/-!
## The record invariant (claim C10)
-/

/-- The invariant every surfaced ProductRecord satisfies: the name is
trimmed, passed the assembler name-acceptance check (at least 3
characters once stripped, hence non-empty), the price passed the range
check, and the secondary search URL is the fixed Coupang prefix followed
by the URL-encoded name. -/
def recordInvariant (p : Product) : Prop :=
  pyStrip p.name = p.name ∧
  3 ≤ p.name.length ∧
  1000 ≤ p.price ∧ p.price ≤ 10000000 ∧
  p.coupang_search_url = "https://www.coupang.com/np/search?q=" ++ pyQuote p.name

theorem extract_single_product_inv (item : Item) (p : Product)
    (h : extract_single_product item = some p) : recordInvariant p := by
  unfold extract_single_product at h
  cases hn : get_product_name item with
  | none => rw [hn] at h; cases h
  | some name =>
    rw [hn] at h
    dsimp only at h
    by_cases hrej : name = "" ∨ (pyStrip name).length < 3
    · rw [if_pos hrej] at h; cases h
    · rw [if_neg hrej] at h
      by_cases hpr : 0 < get_price item
      · rw [if_pos hpr] at h
        have hlen : 3 ≤ (pyStrip name).length := by
          rcases not_or.mp hrej with ⟨_, h2⟩
          omega
        have hrange := get_price_cases item
        cases h
        refine ⟨?_, ?_, ?_, ?_, ?_⟩
        · exact pyStrip_idem name
        · simpa [pyStrip, String.length] using hlen
        · rcases hrange with h0 | hr
          · omega
          · exact hr.1
        · rcases hrange with h0 | hr
          · omega
          · exact hr.2
        · rfl
      · rw [if_neg hpr] at h; cases h

/-!
## Per-page assembly lemmas (claim C9)
-/

theorem assembleGo_length :
    ∀ (l : List Item) (acc : List Product), acc.length < 40 →
      (assembleGo l acc).length ≤ 40 := by
  intro l
  induction l with
  | nil => intro acc hacc; exact Nat.le_of_lt (by simpa [assembleGo] using hacc)
  | cons item rest ih =>
    intro acc hacc
    rw [assembleGo]
    cases hx : extract_single_product item with
    | none => exact ih acc hacc
    | some p =>
      simp only
      by_cases hcap : 40 ≤ (acc ++ [p]).length
      · rw [if_pos hcap]
        simp only [List.length_append, List.length_cons, List.length_nil] at hcap ⊢
        omega
      · rw [if_neg hcap]
        exact ih (acc ++ [p]) (by omega)

theorem extract_products_length (soup : Soup) :
    (extract_products_from_page soup).length ≤ 40 := by
  unfold extract_products_from_page
  exact assembleGo_length _ [] (by simp)

theorem assembleGo_mem :
    ∀ (l : List Item) (acc : List Product) (p : Product), p ∈ assembleGo l acc →
      p ∈ acc ∨ ∃ item ∈ l, extract_single_product item = some p := by
  intro l
  induction l with
  | nil =>
    intro acc p h
    rw [assembleGo] at h
    exact Or.inl h
  | cons item rest ih =>
    intro acc p h
    rw [assembleGo] at h
    cases hx : extract_single_product item with
    | none =>
      rw [hx] at h
      rcases ih acc p h with hl | ⟨it, hit, hx'⟩
      · exact Or.inl hl
      · exact Or.inr ⟨it, by simp [hit], hx'⟩
    | some q =>
      rw [hx] at h
      simp only at h
      by_cases hcap : 40 ≤ (acc ++ [q]).length
      · rw [if_pos hcap] at h
        rcases List.mem_append.mp h with hl | hr
        · exact Or.inl hl
        · simp only [List.mem_singleton] at hr
          subst hr
          exact Or.inr ⟨item, by simp, hx⟩
      · rw [if_neg hcap] at h
        rcases ih (acc ++ [q]) p h with hl | ⟨it, hit, hx'⟩
        · rcases List.mem_append.mp hl with hl' | hr'
          · exact Or.inl hl'
          · simp only [List.mem_singleton] at hr'
            subst hr'
            exact Or.inr ⟨item, by simp, hx⟩
        · exact Or.inr ⟨it, by simp [hit], hx'⟩

theorem extract_products_mem (soup : Soup) (p : Product)
    (h : p ∈ extract_products_from_page soup) :
    ∃ item ∈ (locate_items soup).take 50, extract_single_product item = some p := by
  unfold extract_products_from_page at h
  rcases assembleGo_mem _ [] p h with hl | hr
  · cases hl
  · exact hr

/-!
## Page-loop lemmas (claims C1, C5, C8, C10)
-/

theorem collect_skip (fetch : Nat → FetchOutcome) (page : Nat) (rest : List Nat)
    (acc : List Product) (r : Response) (hok : fetch page = .ok r)
    (hbad : r.status_code ≠ 200 ∨ r.htmlLength < 1000) :
    collectGoList fetch (page :: rest) acc = collectGoList fetch rest acc := by
  rw [collectGoList, hok]
  dsimp only
  rcases hbad with hb | hb
  · rw [if_pos hb]
  · by_cases h200 : r.status_code ≠ 200
    · rw [if_pos h200]
    · rw [if_neg h200, if_pos hb]

theorem collect_err_break (fetch : Nat → FetchOutcome) (page : Nat) (rest : List Nat)
    (acc : List Product) (herr : fetch page = .err) :
    collectGoList fetch (page :: rest) acc = acc := by
  rw [collectGoList, herr]

theorem collect_empty_break (fetch : Nat → FetchOutcome) (page : Nat) (rest : List Nat)
    (acc : List Product) (r : Response) (hok : fetch page = .ok r)
    (h200 : r.status_code = 200) (hbig : 1000 ≤ r.htmlLength)
    (hemp : extract_products_from_page r.soup = []) :
    collectGoList fetch (page :: rest) acc = acc := by
  rw [collectGoList, hok]
  dsimp only
  rw [if_neg (by omega), if_neg (by omega), hemp]
  rfl

theorem crawl_of_nonempty (fetch : Nat → FetchOutcome) (maxp : Nat)
    (h : collect_basic_info fetch maxp ≠ []) :
    crawl_danawa fetch maxp = ("완료", collect_basic_info fetch maxp) := by
  unfold crawl_danawa
  dsimp only
  rw [if_neg (by simpa using h)]

theorem collectGoList_inv (fetch : Nat → FetchOutcome) :
    ∀ (pages : List Nat) (acc : List Product),
      (∀ q ∈ acc, recordInvariant q) →
      ∀ p ∈ collectGoList fetch pages acc, recordInvariant p := by
  intro pages
  induction pages with
  | nil =>
    intro acc hacc p hp
    rw [collectGoList] at hp
    exact hacc p hp
  | cons page rest ih =>
    intro acc hacc p hp
    rw [collectGoList] at hp
    cases hf : fetch page with
    | err => rw [hf] at hp; exact hacc p hp
    | ok r =>
      rw [hf] at hp
      dsimp only at hp
      by_cases h200 : r.status_code ≠ 200
      · rw [if_pos h200] at hp; exact ih acc hacc p hp
      · rw [if_neg h200] at hp
        by_cases hsmall : r.htmlLength < 1000
        · rw [if_pos hsmall] at hp; exact ih acc hacc p hp
        · rw [if_neg hsmall] at hp
          by_cases hemp : (extract_products_from_page r.soup).isEmpty
          · rw [if_pos hemp] at hp; exact hacc p hp
          · rw [if_neg hemp] at hp
            refine ih (acc ++ extract_products_from_page r.soup) ?_ p hp
            intro q hq
            rcases List.mem_append.mp hq with h1 | h2
            · exact hacc q h1
            · obtain ⟨it, _, hx⟩ := extract_products_mem r.soup q h2
              exact extract_single_product_inv it q hx

/-!
## Fixed points of the normalizer stages (claim C3)
-/

theorem unescapeGo_no_amp :
    ∀ (fuel : Nat) (l : List Char), '&' ∉ l → unescapeGo fuel l = l := by
  intro fuel
  induction fuel with
  | zero => intro l _; rfl
  | succ n ih =>
    intro l h
    cases l with
    | nil => rfl
    | cons c rest =>
      have hc : ¬(c = '&') := fun he => h (he ▸ List.mem_cons_self c rest)
      have hr : '&' ∉ rest := fun hm => h (List.mem_cons_of_mem c hm)
      rw [unescapeGo, if_neg hc, ih rest hr]

theorem unescape_no_amp (l : List Char) (h : '&' ∉ l) : unescape l = l :=
  unescapeGo_no_amp l.length l h

/-- No position of `l` starts a match of the bracketed promotional
pattern with keyword `key`. -/
def NoPromoMatch (key l : List Char) : Prop :=
  ∀ n < l.length, matchAt key (l.drop n) = none

instance (key l : List Char) : Decidable (NoPromoMatch key l) := by
  unfold NoPromoMatch
  infer_instance

theorem subPromoGo_nomatch (key : List Char) :
    ∀ (fuel : Nat) (l : List Char), NoPromoMatch key l → subPromoGo key fuel l = l := by
  intro fuel
  induction fuel with
  | zero => intro l _; cases l <;> rfl
  | succ n ih =>
    intro l h
    cases l with
    | nil => rfl
    | cons c rest =>
      have h0 : matchAt key (c :: rest) = none := by
        simpa using h 0 (by simp)
      rw [subPromoGo, h0]
      dsimp only
      rw [ih rest ?_]
      intro m hm
      simpa [List.drop_succ_cons] using h (m + 1) (by simpa using Nat.succ_lt_succ hm)

theorem subPromo_nomatch (key l : List Char) (h : NoPromoMatch key l) :
    subPromo key l = l :=
  subPromoGo_nomatch key l.length l h

/-- Every whitespace character is a plain space. -/
def onlyPlainSpaces (l : List Char) : Bool := l.all (fun c => !isPySpace c || c == ' ')

/-- No two adjacent spaces. -/
def noDoubleSpace : List Char → Bool
  | [] => true
  | [_] => true
  | a :: b :: rest => !(a == ' ' && b == ' ') && noDoubleSpace (b :: rest)

theorem noDoubleSpace_tail (c : Char) (rest : List Char)
    (h : noDoubleSpace (c :: rest) = true) : noDoubleSpace rest = true := by
  cases rest with
  | nil => rfl
  | cons b r2 =>
    rw [noDoubleSpace, Bool.and_eq_true] at h
    exact h.2

theorem collapseGo_id :
    ∀ l : List Char, onlyPlainSpaces l = true → noDoubleSpace l = true →
      collapseGo false l = l := by
  intro l
  induction l with
  | nil => intro _ _; rfl
  | cons c rest ih =>
    intro hplain hdbl
    rw [onlyPlainSpaces, List.all_cons, Bool.and_eq_true] at hplain
    obtain ⟨hc, hrestplain⟩ := hplain
    have hrestplain' : onlyPlainSpaces rest = true := hrestplain
    have hrestdbl := noDoubleSpace_tail c rest hdbl
    by_cases hsp : isPySpace c = true
    · have hceq : c = ' ' := by
        rw [hsp] at hc
        simpa using hc
      subst hceq
      rw [collapseGo, if_pos hsp, if_neg (by decide : ¬((false : Bool) = true))]
      cases rest with
      | nil => rfl
      | cons d r2 =>
        have hd : (d == ' ') = false := by
          rw [noDoubleSpace, Bool.and_eq_true] at hdbl
          have h1 := hdbl.1
          cases hdd : (d == ' ') with
          | false => rfl
          | true =>
            rw [hdd, (by decide : ((' ' == ' ') : Bool) = true)] at h1
            exact absurd h1 (by decide)
        have hdns : isPySpace d = false := by
          rw [onlyPlainSpaces, List.all_cons, Bool.and_eq_true] at hrestplain'
          have h1 := hrestplain'.1
          cases hh : isPySpace d with
          | false => rfl
          | true =>
            rw [hh, hd] at h1
            exact absurd h1 (by decide)
        have hihrest := ih hrestplain' hrestdbl
        rw [collapseGo, if_neg (by simp [hdns])] at hihrest ⊢
        exact congrArg (List.cons ' ') hihrest
    · rw [collapseGo, if_neg hsp]
      rw [ih hrestplain' hrestdbl]

theorem dropWhile_id_of_head (p : Char → Bool) (l : List Char)
    (h : ∀ c, l.head? = some c → p c = false) : l.dropWhile p = l := by
  cases l with
  | nil => rfl
  | cons c rest => exact List.dropWhile_cons_of_neg (by simp [h c rfl])

theorem stripList_id (l : List Char)
    (hhead : ∀ c, l.head? = some c → isPySpace c = false)
    (hlast : ∀ c, l.getLast? = some c → isPySpace c = false) :
    stripList l = l := by
  unfold stripList
  rw [dropWhile_id_of_head _ l hhead]
  rw [dropWhile_id_of_head _ l.reverse
    (by intro c hc; exact hlast c (by rwa [List.head?_reverse] at hc))]
  exact List.reverse_reverse l

/-!
## Fuel sufficiency

`subPromoGo` and `unescapeGo` carry a fuel bound; the following lemmas
show any fuel of at least the input length computes the same function,
so the `l.length` supplied by `subPromo` and `unescape` is enough and the
fuel is not observable.
-/

theorem findClose_length_lt :
    ∀ (l tail : List Char), findClose l = some tail → tail.length < l.length := by
  intro l
  induction l with
  | nil => intro tail h; cases h
  | cons c rest ih =>
    intro tail h
    rw [findClose] at h
    by_cases h1 : c = ']'
    · rw [if_pos h1] at h
      cases h
      simp
    · rw [if_neg h1] at h
      by_cases h2 : c = '\n'
      · rw [if_pos h2] at h; cases h
      · rw [if_neg h2] at h
        exact Nat.lt_trans (ih tail h) (by simp)

theorem matchHere_length_lt (key l tail : List Char)
    (h : matchHere key l = some tail) : tail.length < l.length := by
  unfold matchHere at h
  by_cases hp : key.isPrefixOf l
  · rw [if_pos hp] at h
    have h1 := findClose_length_lt _ _ h
    have h2 : (l.drop key.length).length ≤ l.length := by
      rw [List.length_drop]; omega
    omega
  · rw [if_neg hp] at h; cases h

theorem matchInner_length_lt (key : List Char) :
    ∀ (l tail : List Char), matchInner key l = some tail → tail.length < l.length := by
  intro l
  induction l with
  | nil => intro tail h; cases h
  | cons c rest ih =>
    intro tail h
    rw [matchInner] at h
    cases hm : matchHere key (c :: rest) with
    | some t2 =>
      rw [hm] at h
      dsimp only at h
      rw [Option.some_inj] at h
      subst h
      exact matchHere_length_lt key _ t2 hm
    | none =>
      rw [hm] at h
      dsimp only at h
      by_cases hc : c = '\n'
      · rw [if_pos hc] at h; cases h
      · rw [if_neg hc] at h
        exact Nat.lt_trans (ih tail h) (by simp)

theorem matchAt_length_lt (key : List Char) :
    ∀ (l tail : List Char), matchAt key l = some tail → tail.length < l.length := by
  intro l tail h
  cases l with
  | nil => cases h
  | cons c rest =>
    rw [matchAt] at h
    by_cases hc : c = '['
    · rw [if_pos hc] at h
      exact Nat.lt_trans (matchInner_length_lt key rest tail h) (by simp)
    · rw [if_neg hc] at h; cases h

theorem subPromoGo_fuel (key : List Char) :
    ∀ (n m : Nat) (l : List Char), l.length ≤ n → l.length ≤ m →
      subPromoGo key n l = subPromoGo key m l := by
  intro n
  induction n with
  | zero =>
    intro m l hn _
    have hl : l = [] := List.eq_nil_of_length_eq_zero (Nat.le_zero.mp hn)
    subst hl
    cases m <;> rfl
  | succ n ih =>
    intro m l hn hm
    cases l with
    | nil => cases m <;> rfl
    | cons c rest =>
      cases m with
      | zero => simp at hm
      | succ m' =>
        simp only [List.length_cons, Nat.add_le_add_iff_right] at hn hm
        rw [subPromoGo, subPromoGo]
        cases hma : matchAt key (c :: rest) with
        | some tail =>
          dsimp only
          have hlt := matchAt_length_lt key _ _ hma
          simp only [List.length_cons] at hlt
          exact ih m' tail (by omega) (by omega)
        | none =>
          dsimp only
          rw [ih m' rest hn hm]

theorem unescapeGo_fuel :
    ∀ (n m : Nat) (l : List Char), l.length ≤ n → l.length ≤ m →
      unescapeGo n l = unescapeGo m l := by
  intro n
  induction n with
  | zero =>
    intro m l hn _
    have hl : l = [] := List.eq_nil_of_length_eq_zero (Nat.le_zero.mp hn)
    subst hl
    cases m <;> rfl
  | succ n ih =>
    intro m l hn hm
    cases l with
    | nil => cases m <;> rfl
    | cons c rest =>
      cases m with
      | zero => simp at hm
      | succ m' =>
        simp only [List.length_cons, Nat.add_le_add_iff_right] at hn hm
        have hdrop : ∀ k, (rest.drop k).length ≤ rest.length := by
          intro k; rw [List.length_drop]; omega
        rw [unescapeGo, unescapeGo]
        by_cases hc : c = '&'
        · rw [if_pos hc, if_pos hc]
          by_cases p1 : "amp;".data.isPrefixOf rest
          · rw [if_pos p1, if_pos p1,
              ih m' _ (le_trans (hdrop 4) hn) (le_trans (hdrop 4) hm)]
          · rw [if_neg p1, if_neg p1]
            by_cases p2 : "lt;".data.isPrefixOf rest
            · rw [if_pos p2, if_pos p2,
                ih m' _ (le_trans (hdrop 3) hn) (le_trans (hdrop 3) hm)]
            · rw [if_neg p2, if_neg p2]
              by_cases p3 : "gt;".data.isPrefixOf rest
              · rw [if_pos p3, if_pos p3,
                  ih m' _ (le_trans (hdrop 3) hn) (le_trans (hdrop 3) hm)]
              · rw [if_neg p3, if_neg p3]
                by_cases p4 : "quot;".data.isPrefixOf rest
                · rw [if_pos p4, if_pos p4,
                    ih m' _ (le_trans (hdrop 5) hn) (le_trans (hdrop 5) hm)]
                · rw [if_neg p4, if_neg p4]
                  by_cases p5 : "apos;".data.isPrefixOf rest
                  · rw [if_pos p5, if_pos p5,
                      ih m' _ (le_trans (hdrop 5) hn) (le_trans (hdrop 5) hm)]
                  · rw [if_neg p5, if_neg p5, ih m' rest hn hm]
        · rw [if_neg hc, if_neg hc, ih m' rest hn hm]

/-!
## Further extractor lemmas
-/

theorem firstSome_none {α : Type} (f : String → Option α) :
    ∀ L : List String, (∀ s ∈ L, f s = none) → firstSome f L = none := by
  intro L
  induction L with
  | nil => intro _; rfl
  | cons s rest ih =>
    intro h
    rw [firstSome, h s (by simp)]
    exact ih fun t ht => h t (by simp [ht])

theorem firstNonempty_at (f : String → List Item) :
    ∀ (pre : List String) (s : String) (post : List String),
      (∀ t ∈ pre, f t = []) → f s ≠ [] →
      firstNonempty f (pre ++ s :: post) = f s := by
  intro pre
  induction pre with
  | nil =>
    intro s post _ hs
    rw [List.nil_append, firstNonempty, if_neg (by simpa [List.isEmpty_iff] using hs)]
  | cons t pre ih =>
    intro s post hpre hs
    rw [List.cons_append, firstNonempty,
      if_pos (by simp [List.isEmpty_iff, hpre t (by simp)])]
    exact ih s post (fun u hu => hpre u (by simp [hu])) hs

theorem firstNonempty_nil (f : String → List Item) :
    ∀ L : List String, (∀ s ∈ L, f s = []) → firstNonempty f L = [] := by
  intro L
  induction L with
  | nil => intro _; rfl
  | cons s rest ih =>
    intro h
    rw [firstNonempty, if_pos (by simp [List.isEmpty_iff, h s (by simp)])]
    exact ih fun t ht => h t (by simp [ht])

/-- Characterization of assembler acceptance: a record is produced
exactly when the name extractor succeeds with a name of stripped length
at least 3 and the price extractor returns a positive value. -/
theorem extract_isSome_iff (item : Item) :
    (extract_single_product item).isSome = true ↔
      ∃ n, get_product_name item = some n ∧ 3 ≤ (pyStrip n).length ∧
        0 < get_price item := by
  unfold extract_single_product
  cases hn : get_product_name item with
  | none => simp
  | some name =>
    dsimp only
    by_cases hrej : name = "" ∨ (pyStrip name).length < 3
    · rw [if_pos hrej]
      simp only [Option.isSome_none, Bool.false_eq_true, false_iff]
      rintro ⟨n, hn', hlen, _⟩
      rw [Option.some_inj] at hn'
      subst hn'
      rcases hrej with h1 | h2
      · subst h1
        have : (pyStrip "").length = 0 := rfl
        omega
      · omega
    · rw [if_neg hrej]
      by_cases hpr : 0 < get_price item
      · rw [if_pos hpr]
        simp only [Option.isSome_some, true_iff]
        exact ⟨name, rfl, by rcases not_or.mp hrej with ⟨_, h2⟩; omega, hpr⟩
      · rw [if_neg hpr]
        simp only [Option.isSome_none, Bool.false_eq_true, false_iff]
        rintro ⟨n, _, _, hpr'⟩
        exact hpr hpr'

theorem extract_isSome_price (item : Item)
    (h : (extract_single_product item).isSome = true) : 0 < get_price item := by
  obtain ⟨n, _, _, hpr⟩ := (extract_isSome_iff item).mp h
  exact hpr

/-!
## Concrete inputs used by witnesses and counterexamples
-/

/-- A listing node with no queryable content at all. -/
def dummyItem : Item := ⟨fun _ => none, fun _ => [], ""⟩

/-- A page document matching no listing selector. -/
def soupEmptySel : Soup := ⟨fun _ => []⟩

/-- A name element whose visible text normalizes to the 3-character
string `a b` (the raw text `a  b` has 4 characters, passing the
extractor's `> 3` bound; whitespace collapse then shortens it). -/
def nameElemAB : Elem := ⟨"", "a  b", []⟩

/-- A price element carrying 1,500 (in range). -/
def priceElemAB : Elem := ⟨"1,500원", "", []⟩

/-- A listing node whose normalized name has stripped length exactly 3
and whose price is accepted. -/
def itemAB : Item :=
  ⟨fun s =>
      if s = "p.prod_name a" then some nameElemAB
      else if s = "strong.num" then some priceElemAB
      else none,
    fun _ => [], ""⟩

/-- The record the assembler produces for `itemAB`. -/
def recordAB : Product :=
  ⟨"a b", 1500, "", "https://www.coupang.com/np/search?q=a%20b"⟩

/-- A name element with an ordinary long name. -/
def nameElemGood : Elem := ⟨"", "Ergo Chair Pro", []⟩

/-- A price element carrying 2,000 (in range). -/
def priceElemGood : Elem := ⟨"2,000원", "", []⟩

/-- A listing node yielding a valid record. -/
def itemGood : Item :=
  ⟨fun s =>
      if s = "p.prod_name a" then some nameElemGood
      else if s = "strong.num" then some priceElemGood
      else none,
    fun _ => [], ""⟩

/-- The record the assembler produces for `itemGood`. -/
def recordGood : Product :=
  ⟨"Ergo Chair Pro", 2000, "",
    "https://www.coupang.com/np/search?q=Ergo%20Chair%20Pro"⟩

/-- A page document whose first listing selector matches `itemGood`. -/
def soupGood : Soup := ⟨fun s => if s = "ul.product_list li" then [itemGood] else []⟩

/-- A price element carrying 500 (below the accepted range). -/
def elem500 : Elem := ⟨"500원", "", []⟩

/-- A price element carrying 999999 (inside the accepted range). -/
def elem999999 : Elem := ⟨"999999원", "", []⟩

/-- A node with a valid name whose only price evidence is 500. -/
def item500 : Item :=
  ⟨fun s =>
      if s = "p.prod_name a" then some nameElemGood
      else if s = "strong.num" then some elem500
      else none,
    fun _ => [], "500원"⟩

/-- A node with a valid name and price 999999. -/
def item999999 : Item :=
  ⟨fun s =>
      if s = "p.prod_name a" then some nameElemGood
      else if s = "strong.num" then some elem999999
      else none,
    fun _ => [], ""⟩

/-- A document matching both the first and the second listing selector. -/
def soupBoth : Soup :=
  ⟨fun s =>
      if s = "ul.product_list li" then [dummyItem]
      else if s = ".main_prodlist li" then [dummyItem, dummyItem]
      else []⟩

/-- A document with 55 listing nodes. -/
def soupMany : Soup :=
  ⟨fun s => if s = "ul.product_list li" then List.replicate 55 dummyItem else []⟩

/-- A document with 52 listing nodes, agreeing with `soupMany` on the
first 50. -/
def soupMany2 : Soup :=
  ⟨fun s => if s = "ul.product_list li" then List.replicate 52 dummyItem else []⟩

/-- A fetch oracle: page 1 succeeds with one valid record, every later
page raises inside the per-page handler. -/
def fetchThenError : Nat → FetchOutcome :=
  fun p => if p = 1 then .ok ⟨200, 5000, soupGood⟩ else .err

/-- A fetch oracle raising on every page. -/
def fetchAllErr : Nat → FetchOutcome := fun _ => .err

/-- A fetch oracle whose first page succeeds but matches no listing
selector. -/
def fetchEmptyPage : Nat → FetchOutcome :=
  fun p => if p = 1 then .ok ⟨200, 5000, soupEmptySel⟩ else .err

/-- A fetch oracle: page 1 yields a record, later pages yield zero
listing nodes. -/
def fetchGoodThenEmpty : Nat → FetchOutcome :=
  fun p => if p = 1 then .ok ⟨200, 5000, soupGood⟩ else .ok ⟨200, 5000, soupEmptySel⟩

/-- A fetch oracle answering every page with an HTTP 404 of plausible
size. -/
def fetchBad : Nat → FetchOutcome := fun _ => .ok ⟨404, 5000, soupEmptySel⟩

/-!
## Claim theorems
-/

/-- C1, counterexample: a run whose first page accumulates one record and
whose second page raises inside the per-page handler ends with the
success status `완료` and that record surfaced — not an error status with
zero records, as the claim demands. -/
theorem c1_cex_exception_keeps_partial :
    crawl_danawa fetchThenError 3 = ("완료", [recordGood]) ∧
    ("완료" : String) ≠ "오류" ∧ [recordGood] ≠ [] := by
  refine ⟨by decide, by decide, by decide⟩

/-- C1, amended: an unexpected exception during a page's processing is
caught by the per-page handler and merely stops the page loop, keeping
the records accumulated from earlier pages; whenever the collection is
non-empty the job finishes with the success status `완료` and those
records surfaced.  (The error status `오류` with zero records arises only
from an exception raised outside the per-page handler.) -/
theorem c1_page_exception_keeps_records :
    (∀ (fetch : Nat → FetchOutcome) (page : Nat) (rest : List Nat)
        (acc : List Product), fetch page = FetchOutcome.err →
        collectGoList fetch (page :: rest) acc = acc) ∧
    (∀ (fetch : Nat → FetchOutcome) (maxp : Nat),
        collect_basic_info fetch maxp ≠ [] →
        crawl_danawa fetch maxp = ("완료", collect_basic_info fetch maxp)) :=
  ⟨collect_err_break, crawl_of_nonempty⟩

theorem c1_page_exception_keeps_records_witness :
    collectGoList fetchAllErr (1 :: [2, 3]) [recordGood] = [recordGood] :=
  c1_page_exception_keeps_records.1 fetchAllErr 1 [2, 3] [recordGood] rfl

/-- C2, counterexample: the node `itemAB` has normalized name `a b` of
stripped length exactly 3 and an accepted price, and the assembler does
produce a record for it — the claim predicts no record (it asserts the
bound is strict). -/
theorem c2_cex_length_three_accepted :
    get_product_name itemAB = some "a b" ∧
    (pyStrip "a b").length = 3 ∧
    extract_single_product itemAB = some recordAB := by
  refine ⟨by decide, by decide, by decide⟩

/-- C2, amended: the assembler produces a record iff the name extractor
succeeds with a normalized name whose stripped length is at least 3 (not
strictly greater than 3) and the price extractor returns a positive
value; in particular a stripped length of exactly 3 is accepted.  (The
strict `> 3` bound applies to the raw text inside the name extractor,
before normalization, not to the normalized name.) -/
theorem c2_assembler_accepts_iff (item : Item) :
    (extract_single_product item).isSome = true ↔
      ∃ n, get_product_name item = some n ∧ 3 ≤ (pyStrip n).length ∧
        0 < get_price item :=
  extract_isSome_iff item

/-- C3, counterexample: `&amp;` is itself a normalizer output (of
`&amp;amp;`), yet normalizing it again yields `&`: entity decoding makes
the normalizer non-idempotent on its own image. -/
theorem c3_cex_not_idempotent :
    clean_name "&amp;amp;" = "&amp;" ∧
    clean_name (clean_name "&amp;amp;") = "&" ∧
    clean_name (clean_name "&amp;amp;") ≠ clean_name "&amp;amp;" := by
  refine ⟨by decide, by decide, by decide⟩

/-- C3, amended: the normalizer is not idempotent on all of its outputs
(see the counterexample); it is a fixed point on every fully normalized
string — one with no ampersand (so entity decoding is inert), no
position starting a bracketed promotional match, no star glyphs, and all
whitespace already collapsed to single interior spaces.  These
conditions are sufficient, not necessary: a string such as `a & b` is
also a fixed point. -/
theorem c3_clean_name_fixed_point (s : String)
    (hamp : '&' ∉ s.data)
    (h1 : NoPromoMatch "무료배송".data s.data)
    (h2 : NoPromoMatch "특가".data s.data)
    (h3 : NoPromoMatch "이벤트".data s.data)
    (hstar : '★' ∉ s.data) (hstar2 : '☆' ∉ s.data)
    (hplain : onlyPlainSpaces s.data = true)
    (hdbl : noDoubleSpace s.data = true)
    (hhead : s.data.head?.all (fun c => !isPySpace c) = true)
    (hlast : s.data.getLast?.all (fun c => !isPySpace c) = true) :
    clean_name s = s := by
  unfold clean_name
  dsimp only
  rw [unescape_no_amp s.data hamp, subPromo_nomatch _ _ h1, subPromo_nomatch _ _ h2,
    subPromo_nomatch _ _ h3]
  rw [List.filter_eq_self.mpr
    (by intro a ha;
        exact decide_eq_true fun he => hstar2 (he ▸ List.mem_of_mem_filter ha))]
  rw [List.filter_eq_self.mpr
    (by intro a ha; exact decide_eq_true fun he => hstar (he ▸ ha))]
  rw [collapseGo_id s.data hplain hdbl]
  unfold pyStrip
  dsimp only
  rw [stripList_id s.data
    (by intro c hc; rw [hc] at hhead; simpa using hhead)
    (by intro c hc; rw [hc] at hlast; simpa using hlast)]

theorem c3_clean_name_fixed_point_witness : clean_name "abc d" = "abc d" :=
  c3_clean_name_fixed_point "abc d" (by decide) (by decide) (by decide) (by decide)
    (by decide) (by decide) (by decide) (by decide) (by decide) (by decide)

/-- C4: the price extractor returns 0 or a value in [1000, 10000000]; a
selector candidate is accepted only with at least 3 digits and an
in-range parse; a record is produced only with a positive price; price
evidence 500 yields the sentinel 0 and no record, price evidence 999999
is accepted. -/
theorem c4_price_contract :
    (∀ item : Item,
        get_price item = 0 ∨ (1000 ≤ get_price item ∧ get_price item ≤ 10000000)) ∧
    (∀ (e : Elem) (p : Nat), priceFromElem e = some p →
        3 ≤ (digitsOf e.text).length ∧ 1000 ≤ p ∧ p ≤ 10000000) ∧
    (∀ item : Item, (extract_single_product item).isSome = true →
        0 < get_price item) ∧
    (get_price item500 = 0 ∧ extract_single_product item500 = none) ∧
    (get_price item999999 = 999999 ∧ (extract_single_product item999999).isSome = true) :=
  ⟨get_price_cases, priceFromElem_spec, extract_isSome_price,
    ⟨by decide, by decide⟩, ⟨by decide, by decide⟩⟩

theorem c4_price_contract_witness : 0 < get_price item999999 :=
  c4_price_contract.2.2.1 item999999 (by decide)

/-- C5, counterexample: a run whose very first page yields zero listing
nodes (before the page limit of 2) ends with the failure status `실패`,
not a success status as the claim demands. -/
theorem c5_cex_empty_first_page_fails :
    crawl_danawa fetchEmptyPage 2 = ("실패", []) ∧ ("실패" : String) ≠ "완료" := by
  refine ⟨by decide, by decide⟩

/-- C5, amended: a page yielding zero listing nodes stops the loop with
the previously accumulated records intact, and the final status is the
success status `완료` provided at least one record was accumulated; when
nothing was accumulated the job instead reports the failure status
`실패` with empty results. -/
theorem c5_empty_page_halts_keeps_records :
    (∀ (fetch : Nat → FetchOutcome) (page : Nat) (rest : List Nat)
        (acc : List Product) (r : Response),
        fetch page = FetchOutcome.ok r → r.status_code = 200 →
        1000 ≤ r.htmlLength → extract_products_from_page r.soup = [] →
        collectGoList fetch (page :: rest) acc = acc) ∧
    (∀ (fetch : Nat → FetchOutcome) (maxp : Nat),
        collect_basic_info fetch maxp ≠ [] →
        (crawl_danawa fetch maxp).1 = "완료") :=
  ⟨collect_empty_break, fun f m h => by rw [crawl_of_nonempty f m h]⟩

theorem c5_empty_page_halts_keeps_records_witness :
    collectGoList fetchGoodThenEmpty (2 :: [3]) [recordGood] = [recordGood] :=
  c5_empty_page_halts_keeps_records.1 fetchGoodThenEmpty 2 [3] [recordGood]
    ⟨200, 5000, soupEmptySel⟩ rfl rfl (by decide) rfl

/-- C6: the Listing Locator returns exactly the node set of the first
selector (in the fixed order) matching a non-empty set, and the empty
set when no selector matches; nodes of lower-priority selectors are never
merged in. -/
theorem c6_locator_first_selector_wins :
    (∀ (soup : Soup) (pre : List String) (s : String) (post : List String),
        listingSelectors = pre ++ s :: post →
        (∀ t ∈ pre, soup.select t = []) → soup.select s ≠ [] →
        locate_items soup = soup.select s) ∧
    (∀ soup : Soup, (∀ s ∈ listingSelectors, soup.select s = []) →
        locate_items soup = []) := by
  constructor
  · intro soup pre s post hdecomp hpre hs
    unfold locate_items
    rw [hdecomp]
    exact firstNonempty_at soup.select pre s post hpre hs
  · intro soup h
    unfold locate_items
    exact firstNonempty_nil soup.select listingSelectors h

/-- On a document matching both the first and second candidate selector,
only the first selector's single node is returned. -/
theorem c6_locator_first_selector_wins_witness :
    locate_items soupBoth = soupBoth.select "ul.product_list li" :=
  c6_locator_first_selector_wins.1 soupBoth [] "ul.product_list li"
    [".main_prodlist li", ".prod_list li", "li.prod_item", ".item_wrap",
      ".product_item"]
    rfl (by intro t ht; cases ht) (by simp [soupBoth, dummyItem])

/-- C7: link targets are resolved by prefix case — protocol-relative
targets get `https:` prepended, root-relative targets get the Danawa
origin prepended, all other (in particular already-absolute) targets pass
through unchanged — and when no selector yields a non-empty target the
extractor returns the empty string. -/
theorem c7_link_resolution :
    (∀ h : String, pyStartsWith h "//" = true → resolveHref h = "https:" ++ h) ∧
    (∀ h : String, pyStartsWith h "//" = false → pyStartsWith h "/" = true →
        resolveHref h = "https://www.danawa.com" ++ h) ∧
    (∀ h : String, pyStartsWith h "//" = false → pyStartsWith h "/" = false →
        resolveHref h = h) ∧
    (∀ item : Item, (∀ s ∈ urlSelectors, hrefCandidate item s = none) →
        get_product_url item = "") ∧
    (∀ (item : Item) (t : String),
        firstSome (hrefCandidate item) urlSelectors = some t →
        get_product_url item = resolveHref t) ∧
    resolveHref "//img.example.com/a" = "https://img.example.com/a" ∧
    resolveHref "/item/1" = "https://www.danawa.com/item/1" ∧
    resolveHref "https://x.com/y" = "https://x.com/y" := by
  refine ⟨?_, ?_, ?_, ?_, ?_, by decide, by decide, by decide⟩
  · intro h h2
    unfold resolveHref
    rw [if_pos h2]
  · intro h h2 h1
    unfold resolveHref
    rw [if_neg (by simp [h2]), if_pos h1]
  · intro h h2 h1
    unfold resolveHref
    rw [if_neg (by simp [h2]), if_neg (by simp [h1])]
  · intro item h
    unfold get_product_url
    rw [firstSome_none (hrefCandidate item) urlSelectors h]
  · intro item t h
    unfold get_product_url
    rw [h]

theorem c7_link_resolution_witness :
    resolveHref "//cdn.example.net/x" = "https:" ++ "//cdn.example.net/x" :=
  c7_link_resolution.1 "//cdn.example.net/x" (by decide)

/-- C8: a response with a status code other than 200, or with a decoded
body under 1000 characters, makes the loop skip that page — no
extraction, no records from it — and continue with the next page; the
equation shows the run is exactly the run over the remaining pages, so
such a page never aborts the job. -/
theorem c8_bad_page_skipped :
    ∀ (fetch : Nat → FetchOutcome) (page : Nat) (rest : List Nat)
      (acc : List Product) (r : Response),
      fetch page = FetchOutcome.ok r →
      (r.status_code ≠ 200 ∨ r.htmlLength < 1000) →
      collectGoList fetch (page :: rest) acc = collectGoList fetch rest acc :=
  collect_skip

theorem c8_bad_page_skipped_witness :
    collectGoList fetchBad (1 :: [2]) [] = collectGoList fetchBad [2] [] :=
  c8_bad_page_skipped fetchBad 1 [2] [] ⟨404, 5000, soupEmptySel⟩ rfl
    (Or.inl (by decide))

/-- C9: per page, at most 50 located nodes are ever inspected (documents
agreeing on their first 50 located nodes produce identical results) and
at most 40 records are produced, so the per-page result list never
exceeds 40 regardless of how many nodes the locator returns. -/
theorem c9_page_caps :
    (∀ soup : Soup, (extract_products_from_page soup).length ≤ 40) ∧
    (∀ s1 s2 : Soup, (locate_items s1).take 50 = (locate_items s2).take 50 →
        extract_products_from_page s1 = extract_products_from_page s2) := by
  constructor
  · exact extract_products_length
  · intro s1 s2 h
    unfold extract_products_from_page
    rw [h]

theorem c9_page_caps_witness :
    extract_products_from_page soupMany = extract_products_from_page soupMany2 ∧
    (extract_products_from_page soupMany).length ≤ 40 :=
  ⟨c9_page_caps.2 soupMany soupMany2 rfl, c9_page_caps.1 soupMany⟩

/-- C10: every record in the surfaced result sequence of any run
satisfies the record invariant: trimmed accepted name, in-range price,
and the secondary search URL equal to the fixed Coupang prefix followed
by the URL-encoded name. -/
theorem c10_crawl_records_invariant (fetch : Nat → FetchOutcome) (maxp : Nat) :
    ∀ p ∈ (crawl_danawa fetch maxp).2, recordInvariant p := by
  intro p hp
  unfold crawl_danawa at hp
  dsimp only at hp
  by_cases h : (collect_basic_info fetch maxp).isEmpty
  · rw [if_pos h] at hp
    simp at hp
  · rw [if_neg h] at hp
    exact collectGoList_inv fetch _ [] (by intro q hq; cases hq) p hp

theorem c10_crawl_records_invariant_witness : recordInvariant recordGood :=
  c10_crawl_records_invariant fetchThenError 3 recordGood (by decide)
